import Mathlib

/-!
# Verification of the AES-256 file encryption application core

Shallow embedding of `src/main.rs` of the `aes256_encryption_gui_app`
repository.  Bytes are modelled as `Nat` values; byte buffers as
`List Nat`.  The AES-256 block cipher itself lives in the external
`aes` crate (not part of this repository), so the cipher engine is
modelled from the specification: CBC chaining with PKCS7 padding over
an abstract block transform of 16-byte blocks.  Everything else
(`password_to_key`, the mode labels, the output-path and status-string
construction, and the `ProcessFile` arm of `App::update` with its
`expect`/`unwrap` panics) is translated directly from the source.
-/

/-- The `Mode` enum of `main.rs`: direction of the transformation. -/
inductive Mode where
  | Encrypt : Mode
  | Decrypt : Mode
deriving DecidableEq, Repr

/-- The `Display` implementation for `Mode` in `main.rs`:
`Encrypt ↦ "Encrypt"`, `Decrypt ↦ "Decrypt"`. -/
def modeLabel : Mode → String
  | Mode.Encrypt => "Encrypt"
  | Mode.Decrypt => "Decrypt"

/-- UTF-8 encoding of a single character (Rust strings are UTF-8, so
`password.as_bytes()` yields exactly this byte sequence). -/
def utf8EncodeChar (c : Char) : List Nat :=
  let n := c.toNat
  if n < 0x80 then [n]
  else if n < 0x800 then
    [0xC0 ||| (n >>> 6), 0x80 ||| (n &&& 0x3F)]
  else if n < 0x10000 then
    [0xE0 ||| (n >>> 12), 0x80 ||| ((n >>> 6) &&& 0x3F), 0x80 ||| (n &&& 0x3F)]
  else
    [0xF0 ||| (n >>> 18), 0x80 ||| ((n >>> 12) &&& 0x3F),
     0x80 ||| ((n >>> 6) &&& 0x3F), 0x80 ||| (n &&& 0x3F)]

/-- UTF-8 encoding of a string, the model of Rust's `str::as_bytes`. -/
def utf8Encode (s : String) : List Nat :=
  (s.data.map utf8EncodeChar).flatten

/-- One step of the loop body of `password_to_key`:
`key[i % 32] ^= *byte`. -/
def keyStep (key : List Nat) (ib : Nat × Nat) : List Nat :=
  key.set (ib.1 % 32) (key.getD (ib.1 % 32) 0 ^^^ ib.2)

/-- `password_to_key` of `main.rs`, acting on the already-encoded byte
sequence: start from a 32-byte zero buffer and XOR byte `i` into
position `i % 32`. -/
def password_to_key_bytes (bytes : List Nat) : List Nat :=
  bytes.enum.foldl keyStep (List.replicate 32 0)

/-- `fn password_to_key(password: &str) -> [u8; 32]` of `main.rs`. -/
def password_to_key (password : String) : List Nat :=
  password_to_key_bytes (utf8Encode password)

/-- The fixed IV of `main.rs`: `let iv = [0u8; 16];`. -/
def zeroIV : List Nat := List.replicate 16 0

/-- Bytewise XOR of two buffers (CBC chaining step). -/
def xorBlock (a b : List Nat) : List Nat := List.zipWith (fun x y => x ^^^ y) a b

/-- PKCS7 padding (spec §4.2): append `n` bytes of value `n` where
`n = 16 - (len mod 16)`, a full extra block when already aligned. -/
def pkcs7Pad (input : List Nat) : List Nat :=
  let n := 16 - input.length % 16
  input ++ List.replicate n n

/-- PKCS7 unpadding (spec §4.2): read the padding-length byte `n` from
the end, require `1 ≤ n ≤ 16` and that the last `n` bytes all equal
`n`, and strip them; otherwise fail. -/
def pkcs7Unpad (l : List Nat) : Option (List Nat) :=
  match l.getLast? with
  | none => none
  | some n =>
    if 1 ≤ n ∧ n ≤ 16 ∧ List.drop (l.length - n) l = List.replicate n n then
      some (l.take (l.length - n))
    else none

/-- Split a buffer into consecutive 16-byte blocks, with explicit fuel
so that the recursion is structural. -/
def chunksGo : Nat → List Nat → List (List Nat)
  | _, [] => []
  | 0, _ :: _ => []
  | fuel + 1, a :: l => (a :: l).take 16 :: chunksGo fuel ((a :: l).drop 16)

/-- Split a buffer into consecutive 16-byte blocks. -/
def chunks (l : List Nat) : List (List Nat) := chunksGo l.length l

/-- Modelled from the spec: CBC encryption of a list of plaintext
blocks (spec §4.2 and glossary) over an abstract block transform `E`
standing for the AES-256 block cipher of the external `aes` crate,
which is not part of this repository.  Each plaintext block is XORed
with the previous ciphertext block (the IV for the first) and then
passed through `E`. -/
def cbcEncryptBlocks (E : List Nat → List Nat) : List Nat → List (List Nat) → List (List Nat)
  | _, [] => []
  | iv, b :: bs =>
    let c := E (xorBlock iv b)
    c :: cbcEncryptBlocks E c bs

/-- Modelled from the spec: CBC decryption of a list of ciphertext
blocks over an abstract inverse block transform `D`. -/
def cbcDecryptBlocks (D : List Nat → List Nat) : List Nat → List (List Nat) → List (List Nat)
  | _, [] => []
  | iv, c :: cs => xorBlock iv (D c) :: cbcDecryptBlocks D c cs

/-- Modelled from the spec: the Encrypt direction of the cipher engine
(`encrypt_vec` of the external `block_modes` crate, spec §4.2): PKCS7
padding followed by CBC encryption; always succeeds. -/
def cbcEncrypt (E : List Nat → List Nat) (iv input : List Nat) : List Nat :=
  (cbcEncryptBlocks E iv (chunks (pkcs7Pad input))).flatten

/-- Modelled from the spec: the raw CBC decryption of the whole buffer
before padding validation. -/
def rawCbcDecrypt (D : List Nat → List Nat) (iv input : List Nat) : List Nat :=
  (cbcDecryptBlocks D iv (chunks input)).flatten

/-- Modelled from the spec: the Decrypt direction of the cipher engine
(`decrypt_vec` of the external `block_modes` crate, spec §4.2):
require the input length to be a nonzero multiple of 16, CBC-decrypt,
then validate and strip the PKCS7 padding; `none` is the
`DecryptError` outcome. -/
def cbcDecrypt (D : List Nat → List Nat) (iv input : List Nat) : Option (List Nat) :=
  if input.length ≠ 0 ∧ input.length % 16 = 0 then
    pkcs7Unpad (rawCbcDecrypt D iv input)
  else none

/-- The fields of the `App` struct of `main.rs`.  The iced widget
states (`browse_button`, `password_input`, `process_button`) carry no
data observable by `update` and are modelled as `Unit` fields. -/
structure AppState where
  file_path : Option String
  password : String
  mode : Mode
  browse_button : Unit
  password_input : Unit
  process_button : Unit
  message : String
deriving DecidableEq

/-- The file-system environment one `ProcessFile` step runs against:
the contents at each path, and oracles telling whether the
`read_to_end`, `File::create` and `write_all` calls succeed
(those failures are environmental). -/
structure FSEnv where
  contents : String → Option (List Nat)
  readOk : String → Bool
  createOk : String → Bool
  writeOk : String → Bool

/-- Outcome of one `ProcessFile` step: either the process dies with a
panic message (Rust `expect`/`unwrap`), or the step completes with an
updated application state.  Both carry the file system left behind. -/
inductive ProcResult where
  | panic : String → (String → Option (List Nat)) → ProcResult
  | ok : AppState → (String → Option (List Nat)) → ProcResult

/-- `format!("{}_{}", file_path.display(), self.mode)` of `main.rs`. -/
def outputFilePath (path : String) (mode : Mode) : String :=
  path ++ "_" ++ modeLabel mode

/-- `format!("{}ed file saved as: {}", self.mode, output_file_path)`
of `main.rs`. -/
def statusMessage (mode : Mode) (out : String) : String :=
  modeLabel mode ++ "ed file saved as: " ++ out

/-- Point update of a file system map (`File::create` plus a
completed `write_all` leave `v` at path `p`). -/
def fsSet (fs : String → Option (List Nat)) (p : String) (v : List Nat) :
    String → Option (List Nat) :=
  fun q => if q = p then some v else fs q

/-- The cipher invocation of the `ProcessFile` arm: `encrypt_vec` in
Encrypt mode (total), `decrypt_vec` in Decrypt mode (may fail). -/
def processResult? (E D : List Nat → List Nat → List Nat) (key : List Nat)
    (mode : Mode) (content : List Nat) : Option (List Nat) :=
  match mode with
  | Mode.Encrypt => some (cbcEncrypt (E key) zeroIV content)
  | Mode.Decrypt => cbcDecrypt (D key) zeroIV content

/-- The output phase of the `ProcessFile` arm: `File::create` (which
truncates the output file to empty), `write_all`, and the status
message update; `expect` on either failure panics. -/
def writePhase (env : FSEnv) (app : AppState) (out : String)
    (result : List Nat) : ProcResult :=
  if env.createOk out then
    if env.writeOk out then
      ProcResult.ok { app with message := statusMessage app.mode out }
        (fsSet (fsSet env.contents out []) out result)
    else ProcResult.panic "Failed to write output file" (fsSet env.contents out [])
  else ProcResult.panic "Failed to create output file" env.contents

/-- The body of the `ProcessFile` arm once a file path is selected:
open and read the file (`expect` panics on failure), run the cipher
(`unwrap` panics on `DecryptError`), then write the output. -/
def openPhase (E D : List Nat → List Nat → List Nat) (env : FSEnv)
    (app : AppState) (path : String) : ProcResult :=
  match env.contents path with
  | none => ProcResult.panic "Failed to open file" env.contents
  | some file_content =>
    if env.readOk path then
      match processResult? E D (password_to_key app.password) app.mode file_content with
      | none =>
        ProcResult.panic "called Result::unwrap on an Err value: BlockModeError"
          env.contents
      | some result => writePhase env app (outputFilePath path app.mode) result
    else ProcResult.panic "Failed to read file" env.contents

/-- The `Message::ProcessFile` arm of `App::update` in `main.rs`,
translated step for step.  The AES-256 block cipher of the external
`aes` crate is abstracted as `E`/`D` (key → 16-byte block → 16-byte
block).  `File::open`, `read_to_end`, `File::create` and `write_all`
are `expect`ed and `decrypt_vec` is `unwrap`ped in the source, so each
failure is a `panic` that kills the process. -/
def processFile (E D : List Nat → List Nat → List Nat) (env : FSEnv)
    (app : AppState) : ProcResult :=
  match app.file_path with
  | none => ProcResult.ok app env.contents
  | some path => openPhase E D env app path

/-- Whether the step ended in a process-killing panic. -/
def ProcResult.isPanic : ProcResult → Bool
  | ProcResult.panic _ _ => true
  | ProcResult.ok _ _ => false

/-- The application state after a completed (non-panicking) step. -/
def ProcResult.appState : ProcResult → Option AppState
  | ProcResult.panic _ _ => none
  | ProcResult.ok a _ => some a

/-- The file system left behind by the step. -/
def ProcResult.fs : ProcResult → (String → Option (List Nat))
  | ProcResult.panic _ fs => fs
  | ProcResult.ok _ fs => fs

/-- The panic message, if the step panicked. -/
def ProcResult.panicMsg : ProcResult → Option String
  | ProcResult.panic m _ => some m
  | ProcResult.ok _ _ => none


/-! ## Key derivation: pointwise characterization -/

/-- XOR-fold of those bytes of `bs` whose position, counting from `n`,
is congruent to `j` modulo 32. -/
def slotXorFrom : Nat → List Nat → Nat → Nat
  | _, [], _ => 0
  | n, b :: bs, j =>
    if n % 32 = j then b ^^^ slotXorFrom (n + 1) bs j
    else slotXorFrom (n + 1) bs j

/-- The 32-byte XOR-fold of a byte sequence modulo 32. -/
def xorFold32 (bytes : List Nat) : List Nat :=
  (List.range 32).map (slotXorFrom 0 bytes)

theorem foldl_keyStep_length (l : List (Nat × Nat)) :
    ∀ key : List Nat, (l.foldl keyStep key).length = key.length := by
  induction l with
  | nil => intro key; rfl
  | cons a l ih =>
    intro key
    rw [List.foldl_cons, ih]
    simp [keyStep]

theorem getD_keyStep (key : List Nat) (n b j : Nat) (hk : key.length = 32)
    (hj : j < 32) :
    (keyStep key (n, b)).getD j 0
      = if n % 32 = j then key.getD j 0 ^^^ b else key.getD j 0 := by
  by_cases h : n % 32 = j
  · subst h
    rw [if_pos rfl]
    unfold keyStep
    rw [List.getD_eq_getElem?_getD, List.getElem?_set_self (by omega)]
    rfl
  · rw [if_neg h]
    unfold keyStep
    rw [List.getD_eq_getElem?_getD, List.getElem?_set_ne h,
      ← List.getD_eq_getElem?_getD]

theorem getD_foldl_keyStep (bytes : List Nat) :
    ∀ (n : Nat) (key : List Nat) (j : Nat), key.length = 32 → j < 32 →
      ((List.enumFrom n bytes).foldl keyStep key).getD j 0
        = key.getD j 0 ^^^ slotXorFrom n bytes j := by
  induction bytes with
  | nil => intro n key j hk hj; simp [slotXorFrom]
  | cons b bs ih =>
    intro n key j hk hj
    rw [List.enumFrom_cons, List.foldl_cons,
      ih (n + 1) (keyStep key (n, b)) j (by simp [keyStep, hk]) hj,
      getD_keyStep key n b j hk hj]
    simp only [slotXorFrom]
    by_cases h : n % 32 = j
    · rw [if_pos h, if_pos h, Nat.xor_assoc]
    · rw [if_neg h, if_neg h]

theorem password_to_key_bytes_length (bytes : List Nat) :
    (password_to_key_bytes bytes).length = 32 := by
  unfold password_to_key_bytes
  rw [foldl_keyStep_length]
  simp

theorem password_to_key_bytes_getD (bytes : List Nat) (j : Nat) (hj : j < 32) :
    (password_to_key_bytes bytes).getD j 0 = slotXorFrom 0 bytes j := by
  unfold password_to_key_bytes
  have henum : bytes.enum = List.enumFrom 0 bytes := rfl
  rw [henum, getD_foldl_keyStep bytes 0 (List.replicate 32 0) j (by simp) hj]
  have h0 : (List.replicate 32 (0 : Nat)).getD j 0 = 0 := by
    rw [List.getD_eq_getElem?_getD, List.getElem?_replicate]
    split <;> rfl
  rw [h0, Nat.zero_xor]

theorem password_to_key_bytes_eq_xorFold32 (bytes : List Nat) :
    password_to_key_bytes bytes = xorFold32 bytes := by
  apply List.ext_getElem
  · rw [password_to_key_bytes_length]
    simp [xorFold32]
  · intro j h1 h2
    have hj : j < 32 := by
      have := password_to_key_bytes_length bytes
      omega
    have hL : (password_to_key_bytes bytes)[j] = (password_to_key_bytes bytes).getD j 0 := by
      rw [List.getD_eq_getElem]
    have hR : (xorFold32 bytes)[j] = slotXorFrom 0 bytes j := by
      simp [xorFold32]
    rw [hL, hR, password_to_key_bytes_getD bytes j hj]

theorem slotXorFrom_append (a : List Nat) :
    ∀ (b : List Nat) (n j : Nat),
      slotXorFrom n (a ++ b) j
        = slotXorFrom n a j ^^^ slotXorFrom (n + a.length) b j := by
  induction a with
  | nil => intro b n j; simp [slotXorFrom]
  | cons x a ih =>
    intro b n j
    have hlen : n + (x :: a).length = n + 1 + a.length := by
      rw [List.length_cons]
      omega
    show slotXorFrom n (x :: (a ++ b)) j = _
    simp only [slotXorFrom]
    rw [ih b (n + 1) j, hlen]
    by_cases h : n % 32 = j
    · rw [if_pos h, if_pos h, Nat.xor_assoc]
    · rw [if_neg h, if_neg h]

theorem slotXorFrom_add32 (bs : List Nat) :
    ∀ (n j : Nat), slotXorFrom (n + 32) bs j = slotXorFrom n bs j := by
  induction bs with
  | nil => intro n j; rfl
  | cons b bs ih =>
    intro n j
    simp only [slotXorFrom]
    rw [Nat.add_mod_right]
    have h1 : n + 32 + 1 = n + 1 + 32 := by omega
    rw [h1, ih (n + 1) j]

/-- C3: for every passphrase string `p`, key derivation starts from a
32-byte zero buffer and XORs each byte of `p`'s UTF-8 encoding, in
order, into position `index mod 32` (so slot `j` of the result is the
XOR-fold of the bytes at positions congruent to `j` mod 32); it is
total and deterministic (a function), always returns exactly 32
bytes, and the empty passphrase yields the all-zero key. -/
theorem password_to_key_correct (p : String) (j : Nat) (hj : j < 32) :
    (password_to_key p).length = 32 ∧
    (password_to_key p).getD j 0 = slotXorFrom 0 (utf8Encode p) j ∧
    password_to_key "" = List.replicate 32 0 :=
  ⟨password_to_key_bytes_length _, password_to_key_bytes_getD _ j hj, by decide⟩

/-- Witness for C3 at `p = "abc"`, `j = 0`. -/
theorem password_to_key_correct_witness :
    (0 : Nat) < 32 ∧
    ((password_to_key "abc").length = 32 ∧
      (password_to_key "abc").getD 0 0 = slotXorFrom 0 (utf8Encode "abc") 0 ∧
      password_to_key "" = List.replicate 32 0) :=
  ⟨by decide, password_to_key_correct "abc" 0 (by decide)⟩

/-- C7: `password_to_key` depends only on the XOR-fold of the
passphrase's bytes modulo 32 — two passphrases whose byte sequences
XOR-fold to the same 32-byte result derive the same key; in
particular a passphrase whose UTF-8 encoding repeats a 32-byte
pattern twice derives the all-zero key. -/
theorem password_to_key_collision (p1 p2 : String)
    (h : xorFold32 (utf8Encode p1) = xorFold32 (utf8Encode p2))
    (q : String) (pat : List Nat) (hq : utf8Encode q = pat ++ pat)
    (hpat : pat.length = 32) :
    password_to_key p1 = password_to_key p2 ∧
    password_to_key q = List.replicate 32 0 := by
  constructor
  · unfold password_to_key
    rw [password_to_key_bytes_eq_xorFold32, password_to_key_bytes_eq_xorFold32, h]
  · unfold password_to_key
    rw [hq, password_to_key_bytes_eq_xorFold32]
    unfold xorFold32
    have hz : ∀ j ∈ List.range 32, slotXorFrom 0 (pat ++ pat) j = 0 := by
      intro j _
      rw [slotXorFrom_append pat pat 0 j]
      have h32 : 0 + pat.length = 0 + 32 := by rw [hpat]
      rw [h32, slotXorFrom_add32 pat 0 j]
      exact Nat.xor_self _
    rw [List.map_congr_left hz]
    simp

/-- Witness for C7: the empty passphrase and a 64-character passphrase
repeating a 32-character pattern twice collide on the all-zero key. -/
theorem password_to_key_collision_witness :
    password_to_key ""
        = password_to_key "abcdefghijklmnopqrstuvwxyz012345abcdefghijklmnopqrstuvwxyz012345" ∧
    password_to_key "abcdefghijklmnopqrstuvwxyz012345abcdefghijklmnopqrstuvwxyz012345"
        = List.replicate 32 0 :=
  password_to_key_collision ""
    "abcdefghijklmnopqrstuvwxyz012345abcdefghijklmnopqrstuvwxyz012345"
    (by decide)
    "abcdefghijklmnopqrstuvwxyz012345abcdefghijklmnopqrstuvwxyz012345"
    [97, 98, 99, 100, 101, 102, 103, 104, 105, 106, 107, 108, 109, 110,
     111, 112, 113, 114, 115, 116, 117, 118, 119, 120, 121, 122, 48, 49,
     50, 51, 52, 53]
    (by decide) (by decide)

/-! ## PKCS7 padding and block chunking -/

theorem pkcs7Pad_length (l : List Nat) :
    (pkcs7Pad l).length = l.length + (16 - l.length % 16) := by
  unfold pkcs7Pad
  simp

theorem pkcs7Pad_length_mod (l : List Nat) : (pkcs7Pad l).length % 16 = 0 := by
  rw [pkcs7Pad_length]
  omega

theorem pkcs7Pad_length_pos (l : List Nat) : 0 < (pkcs7Pad l).length := by
  rw [pkcs7Pad_length]
  omega

theorem pkcs7Unpad_eq_of_getLast (l : List Nat) (n : Nat) (h : l.getLast? = some n) :
    pkcs7Unpad l
      = if 1 ≤ n ∧ n ≤ 16 ∧ List.drop (l.length - n) l = List.replicate n n then
          some (l.take (l.length - n))
        else none := by
  unfold pkcs7Unpad
  rw [h]

theorem pkcs7Unpad_pkcs7Pad (l : List Nat) : pkcs7Unpad (pkcs7Pad l) = some l := by
  have hr : l.length % 16 < 16 := Nat.mod_lt _ (by omega)
  set n := 16 - l.length % 16 with hn
  have hn1 : 1 ≤ n := by omega
  have hn16 : n ≤ 16 := by omega
  have hpad : pkcs7Pad l = l ++ List.replicate n n := rfl
  have hlast : (l ++ List.replicate n n).getLast? = some n := by
    obtain ⟨m, hm⟩ : ∃ m, n = m + 1 := ⟨n - 1, by omega⟩
    rw [hm, List.replicate_succ', ← List.append_assoc, List.getLast?_concat]
  have hlen : (l ++ List.replicate n n).length = l.length + n := by simp
  have hsub : (l ++ List.replicate n n).length - n = l.length := by omega
  have hdrop : List.drop ((l ++ List.replicate n n).length - n) (l ++ List.replicate n n)
      = List.replicate n n := by
    rw [hsub]
    exact List.drop_left l (List.replicate n n)
  have htake : List.take ((l ++ List.replicate n n).length - n) (l ++ List.replicate n n)
      = l := by
    rw [hsub]
    exact List.take_left l (List.replicate n n)
  rw [hpad, pkcs7Unpad_eq_of_getLast _ n hlast, if_pos ⟨hn1, hn16, hdrop⟩, htake]

theorem chunksGo_nil (fuel : Nat) : chunksGo fuel [] = [] := by
  cases fuel <;> rfl

theorem flatten_chunksGo (fuel : Nat) :
    ∀ l : List Nat, l.length ≤ fuel → (chunksGo fuel l).flatten = l := by
  induction fuel with
  | zero =>
    intro l hl
    have : l = [] := List.length_eq_zero.mp (by omega)
    subst this
    rfl
  | succ fuel ih =>
    intro l hl
    cases l with
    | nil => rfl
    | cons a t =>
      show (((a :: t).take 16 :: chunksGo fuel ((a :: t).drop 16)).flatten) = a :: t
      rw [List.flatten_cons, ih ((a :: t).drop 16)
        (by simp only [List.length_drop, List.length_cons] at hl ⊢; omega)]
      exact List.take_append_drop 16 (a :: t)

theorem flatten_chunks (l : List Nat) : (chunks l).flatten = l :=
  flatten_chunksGo l.length l le_rfl

theorem chunksGo_blocks (fuel : Nat) :
    ∀ l : List Nat, l.length ≤ fuel → l.length % 16 = 0 →
      ∀ c ∈ chunksGo fuel l, c.length = 16 := by
  induction fuel with
  | zero =>
    intro l hl _ c hc
    have : l = [] := List.length_eq_zero.mp (by omega)
    subst this
    simp [chunksGo] at hc
  | succ fuel ih =>
    intro l hl hmod c hc
    cases l with
    | nil => simp [chunksGo] at hc
    | cons a t =>
      have h16 : 16 ≤ (a :: t).length := by
        have : (a :: t).length ≠ 0 := by simp
        omega
      rw [show chunksGo (fuel + 1) (a :: t)
            = (a :: t).take 16 :: chunksGo fuel ((a :: t).drop 16) from rfl,
        List.mem_cons] at hc
      rcases hc with hc | hc
      · subst hc
        rw [List.length_take]
        omega
      · exact ih ((a :: t).drop 16)
          (by simp only [List.length_drop, List.length_cons] at hl ⊢; omega)
          (by simp only [List.length_drop, List.length_cons] at hmod ⊢; omega) c hc

theorem chunks_blocks (l : List Nat) (hmod : l.length % 16 = 0) :
    ∀ c ∈ chunks l, c.length = 16 :=
  chunksGo_blocks l.length l le_rfl hmod

theorem chunksGo_flatten (cs : List (List Nat)) :
    ∀ fuel : Nat, (∀ c ∈ cs, c.length = 16) → cs.flatten.length ≤ fuel →
      chunksGo fuel cs.flatten = cs := by
  induction cs with
  | nil => intro fuel _ _; rw [List.flatten_nil, chunksGo_nil]
  | cons c cs ih =>
    intro fuel hblocks hfuel
    have hc : c.length = 16 := hblocks c (List.mem_cons_self c cs)
    have hflat : (c :: cs).flatten = c ++ cs.flatten := List.flatten_cons
    have hlen : (c :: cs).flatten.length = 16 + cs.flatten.length := by
      rw [hflat]
      simp [hc]
    obtain ⟨fuel', hfuel'⟩ : ∃ f, fuel = f + 1 := ⟨fuel - 1, by omega⟩
    subst hfuel'
    have hne : (c :: cs).flatten ≠ [] := by
      intro h
      rw [h] at hlen
      simp at hlen
      omega
    obtain ⟨a, t, hat⟩ := List.exists_cons_of_ne_nil hne
    rw [hat]
    show (a :: t).take 16 :: chunksGo fuel' ((a :: t).drop 16) = c :: cs
    have htake : (a :: t).take 16 = c := by
      rw [← hat, hflat, ← hc, List.take_left]
    have hdrop : (a :: t).drop 16 = cs.flatten := by
      rw [← hat, hflat, ← hc, List.drop_left]
    rw [htake, hdrop, ih fuel' (fun x hx => hblocks x (List.mem_cons_of_mem c hx)) (by omega)]

theorem chunks_flatten (cs : List (List Nat)) (hblocks : ∀ c ∈ cs, c.length = 16) :
    chunks cs.flatten = cs :=
  chunksGo_flatten cs cs.flatten.length hblocks le_rfl

theorem flatten_length_blocks (cs : List (List Nat))
    (hblocks : ∀ c ∈ cs, c.length = 16) :
    cs.flatten.length = 16 * cs.length := by
  induction cs with
  | nil => rfl
  | cons c cs ih =>
    rw [List.flatten_cons, List.length_append,
      ih (fun x hx => hblocks x (List.mem_cons_of_mem c hx)),
      hblocks c (List.mem_cons_self c cs)]
    simp
    ring

/-! ## CBC chaining -/

theorem xorBlock_length (a b : List Nat) :
    (xorBlock a b).length = min a.length b.length := by
  unfold xorBlock
  rw [List.length_zipWith]

theorem xorBlock_xorBlock (a : List Nat) :
    ∀ b : List Nat, a.length = b.length → xorBlock a (xorBlock a b) = b := by
  induction a with
  | nil =>
    intro b hb
    cases b with
    | nil => rfl
    | cons y b => simp at hb
  | cons x a ih =>
    intro b hb
    cases b with
    | nil => simp at hb
    | cons y b =>
      show (x ^^^ (x ^^^ y)) :: xorBlock a (xorBlock a b) = y :: b
      rw [Nat.xor_cancel_left, ih b (by simp at hb; omega)]

theorem cbcEncryptBlocks_length (E : List Nat → List Nat) :
    ∀ (bs : List (List Nat)) (iv : List Nat),
      (cbcEncryptBlocks E iv bs).length = bs.length := by
  intro bs
  induction bs with
  | nil => intro iv; rfl
  | cons b bs ih =>
    intro iv
    show (E (xorBlock iv b) :: cbcEncryptBlocks E (E (xorBlock iv b)) bs).length = _
    rw [List.length_cons, List.length_cons, ih]

theorem cbcEncryptBlocks_blocks16 (E : List Nat → List Nat)
    (hE : ∀ b, b.length = 16 → (E b).length = 16) :
    ∀ (bs : List (List Nat)) (iv : List Nat), iv.length = 16 →
      (∀ b ∈ bs, b.length = 16) →
      ∀ c ∈ cbcEncryptBlocks E iv bs, c.length = 16 := by
  intro bs
  induction bs with
  | nil => intro iv _ _ c hc; simp [cbcEncryptBlocks] at hc
  | cons b bs ih =>
    intro iv hiv hblocks c hc
    have hb : b.length = 16 := hblocks b (List.mem_cons_self b bs)
    have hxb : (xorBlock iv b).length = 16 := by
      rw [xorBlock_length, hiv, hb]
      simp
    have hc16 : (E (xorBlock iv b)).length = 16 := hE _ hxb
    rw [show cbcEncryptBlocks E iv (b :: bs)
          = E (xorBlock iv b) :: cbcEncryptBlocks E (E (xorBlock iv b)) bs from rfl,
      List.mem_cons] at hc
    rcases hc with hc | hc
    · rw [hc]; exact hc16
    · exact ih (E (xorBlock iv b)) hc16
        (fun x hx => hblocks x (List.mem_cons_of_mem b hx)) c hc

theorem cbcDecryptBlocks_cbcEncryptBlocks (E D : List Nat → List Nat)
    (hinv : ∀ b, b.length = 16 → D (E b) = b)
    (hE : ∀ b, b.length = 16 → (E b).length = 16) :
    ∀ (bs : List (List Nat)) (iv : List Nat), iv.length = 16 →
      (∀ b ∈ bs, b.length = 16) →
      cbcDecryptBlocks D iv (cbcEncryptBlocks E iv bs) = bs := by
  intro bs
  induction bs with
  | nil => intro iv _ _; rfl
  | cons b bs ih =>
    intro iv hiv hblocks
    have hb : b.length = 16 := hblocks b (List.mem_cons_self b bs)
    have hxb : (xorBlock iv b).length = 16 := by
      rw [xorBlock_length, hiv, hb]
      simp
    show xorBlock iv (D (E (xorBlock iv b)))
          :: cbcDecryptBlocks D (E (xorBlock iv b))
              (cbcEncryptBlocks E (E (xorBlock iv b)) bs)
        = b :: bs
    rw [hinv _ hxb, xorBlock_xorBlock iv b (by omega),
      ih (E (xorBlock iv b)) (hE _ hxb)
        (fun x hx => hblocks x (List.mem_cons_of_mem b hx))]

theorem cbcEncrypt_length_eq_pad_length (E : List Nat → List Nat)
    (hE : ∀ b, b.length = 16 → (E b).length = 16) (input : List Nat) :
    (cbcEncrypt E zeroIV input).length = (pkcs7Pad input).length := by
  have hmod : (pkcs7Pad input).length % 16 = 0 := pkcs7Pad_length_mod input
  have hbs : ∀ c ∈ chunks (pkcs7Pad input), c.length = 16 := chunks_blocks _ hmod
  have hcs : ∀ c ∈ cbcEncryptBlocks E zeroIV (chunks (pkcs7Pad input)), c.length = 16 :=
    cbcEncryptBlocks_blocks16 E hE _ zeroIV (by rfl) hbs
  unfold cbcEncrypt
  rw [flatten_length_blocks _ hcs, cbcEncryptBlocks_length]
  have h1 : (chunks (pkcs7Pad input)).flatten.length
      = 16 * (chunks (pkcs7Pad input)).length := flatten_length_blocks _ hbs
  rw [flatten_chunks] at h1
  omega

theorem cbc_roundtrip_general (E D : List Nat → List Nat)
    (hinv : ∀ b, b.length = 16 → D (E b) = b)
    (hE : ∀ b, b.length = 16 → (E b).length = 16) (input : List Nat) :
    cbcDecrypt D zeroIV (cbcEncrypt E zeroIV input) = some input := by
  have hmod : (pkcs7Pad input).length % 16 = 0 := pkcs7Pad_length_mod input
  have hpos : 0 < (pkcs7Pad input).length := pkcs7Pad_length_pos input
  have hlen : (cbcEncrypt E zeroIV input).length = (pkcs7Pad input).length :=
    cbcEncrypt_length_eq_pad_length E hE input
  have hbs : ∀ c ∈ chunks (pkcs7Pad input), c.length = 16 := chunks_blocks _ hmod
  have hcs : ∀ c ∈ cbcEncryptBlocks E zeroIV (chunks (pkcs7Pad input)), c.length = 16 :=
    cbcEncryptBlocks_blocks16 E hE _ zeroIV (by rfl) hbs
  unfold cbcDecrypt
  rw [if_pos ⟨by omega, by omega⟩]
  unfold rawCbcDecrypt
  have henc : cbcEncrypt E zeroIV input
      = (cbcEncryptBlocks E zeroIV (chunks (pkcs7Pad input))).flatten := rfl
  rw [henc, chunks_flatten _ hcs,
    cbcDecryptBlocks_cbcEncryptBlocks E D hinv hE _ zeroIV (by rfl) hbs,
    flatten_chunks, pkcs7Unpad_pkcs7Pad]

/-- C1: for every byte buffer `b` and passphrase `p`, decrypting the
encryption of `b` (both with the key derived from `p` by
`password_to_key` and the fixed all-zero 16-byte IV) returns exactly
`b`.  The AES-256 block cipher is abstracted as any keyed block
transform `E` with inverse `D` on 16-byte blocks. -/
theorem encrypt_decrypt_roundtrip (E D : List Nat → List Nat → List Nat)
    (hinv : ∀ k b, b.length = 16 → D k (E k b) = b)
    (hE : ∀ k b, b.length = 16 → (E k b).length = 16)
    (p : String) (b : List Nat) :
    cbcDecrypt (D (password_to_key p)) zeroIV
        (cbcEncrypt (E (password_to_key p)) zeroIV b) = some b :=
  cbc_roundtrip_general (E (password_to_key p)) (D (password_to_key p))
    (fun blk h => hinv _ blk h) (fun blk h => hE _ blk h) b

/-- Witness for C1: the identity block transform on the buffer
`"hello"` with passphrase `"secret"`. -/
theorem encrypt_decrypt_roundtrip_witness :
    cbcDecrypt (fun x => x) zeroIV
        (cbcEncrypt (fun x => x) zeroIV [104, 101, 108, 108, 111])
      = some [104, 101, 108, 108, 111] :=
  encrypt_decrypt_roundtrip (fun _ x => x) (fun _ x => x)
    (fun _ _ _ => rfl) (fun _ _ h => h) "secret" [104, 101, 108, 108, 111]

/-- C5: for every input of length `L`, the Encrypt transform (a total
function) has output length `L + (16 - L mod 16)` when
`L mod 16 ≠ 0` and `L + 16` when `L mod 16 = 0`; hence every
ciphertext length is a positive multiple of 16. -/
theorem cbcEncrypt_output_length (E : List Nat → List Nat)
    (hE : ∀ b, b.length = 16 → (E b).length = 16) (input : List Nat) :
    (cbcEncrypt E zeroIV input).length
        = input.length
            + (if input.length % 16 = 0 then 16 else 16 - input.length % 16) ∧
    (cbcEncrypt E zeroIV input).length % 16 = 0 ∧
    0 < (cbcEncrypt E zeroIV input).length := by
  have h := cbcEncrypt_length_eq_pad_length E hE input
  rw [pkcs7Pad_length] at h
  refine ⟨?_, ?_, ?_⟩
  · rw [h]
    split_ifs with h0 <;> omega
  · rw [h]
    omega
  · rw [h]
    omega

/-- Witness for C5 at the identity block transform and a 3-byte
input. -/
theorem cbcEncrypt_output_length_witness :
    (cbcEncrypt (fun x => x) zeroIV [1, 2, 3]).length = 16 ∧
    (cbcEncrypt (fun x => x) zeroIV [1, 2, 3]).length % 16 = 0 ∧
    0 < (cbcEncrypt (fun x => x) zeroIV [1, 2, 3]).length :=
  cbcEncrypt_output_length (fun x => x) (fun _ h => h) [1, 2, 3]

/-- C8: for the empty input and any passphrase, Encrypt produces
exactly 16 bytes: the CBC encryption of one full padding block whose
16 bytes all have value 16 (its XOR with the all-zero IV being the
block itself). -/
theorem cbcEncrypt_empty (E : List Nat → List Nat → List Nat)
    (hE : ∀ k b, b.length = 16 → (E k b).length = 16) (p : String) :
    cbcEncrypt (E (password_to_key p)) zeroIV []
        = E (password_to_key p) (List.replicate 16 16) ∧
    (cbcEncrypt (E (password_to_key p)) zeroIV []).length = 16 := by
  have hx : xorBlock zeroIV (List.replicate 16 16) = List.replicate 16 16 := by decide
  have hc : chunks (pkcs7Pad []) = [List.replicate 16 16] := by decide
  have h1 : cbcEncrypt (E (password_to_key p)) zeroIV []
      = E (password_to_key p) (List.replicate 16 16) := by
    unfold cbcEncrypt
    rw [hc]
    show (E (password_to_key p) (xorBlock zeroIV (List.replicate 16 16))
        :: ([] : List (List Nat))).flatten = _
    rw [hx]
    simp
  exact ⟨h1, by rw [h1]; exact hE _ _ (by simp)⟩

/-- Witness for C8: the identity block transform and passphrase
`"pw"`: the ciphertext of the empty input is the padding block
itself. -/
theorem cbcEncrypt_empty_witness :
    cbcEncrypt (fun x => x) zeroIV [] = List.replicate 16 16 ∧
    (cbcEncrypt (fun x => x) zeroIV []).length = 16 :=
  cbcEncrypt_empty (fun _ x => x) (fun _ _ h => h) "pw"

/-! ## Decrypt failure characterization -/

/-- The final 16-byte block of a buffer. -/
def lastBlock (l : List Nat) : List Nat := l.drop (l.length - 16)

/-- A block ends in valid PKCS7 padding: its final byte `n` satisfies
`1 ≤ n ≤ 16` and its last `n` bytes all equal `n` (spec §4.2). -/
def blockHasValidPad (b : List Nat) : Prop :=
  ∃ n, b.getLast? = some n ∧ 1 ≤ n ∧ n ≤ 16 ∧
    List.drop (b.length - n) b = List.replicate n n

theorem getLast?_drop_of_lt (l : List Nat) (k : Nat) (hk : k < l.length) :
    (l.drop k).getLast? = l.getLast? := by
  rw [List.getLast?_eq_getElem?, List.getLast?_eq_getElem?, List.getElem?_drop,
    List.length_drop]
  congr 1
  omega

theorem drop_lastBlock (l : List Nat) (n : Nat) (hn : n ≤ 16)
    (h16 : 16 ≤ l.length) :
    List.drop ((lastBlock l).length - n) (lastBlock l)
      = List.drop (l.length - n) l := by
  unfold lastBlock
  rw [List.length_drop, List.drop_drop]
  congr 1
  omega

theorem blockHasValidPad_lastBlock_iff (l : List Nat) (n : Nat)
    (hl : l.getLast? = some n) :
    blockHasValidPad (lastBlock l)
      ↔ 1 ≤ n ∧ n ≤ 16 ∧ List.drop (l.length - n) l = List.replicate n n := by
  have hpos : 0 < l.length := by
    cases l with
    | nil => simp at hl
    | cons a t => simp
  have hlast' : (lastBlock l).getLast? = some n := by
    unfold lastBlock
    rw [getLast?_drop_of_lt l (l.length - 16) (by omega), hl]
  constructor
  · rintro ⟨m, hm, h1, h2, h3⟩
    rw [hlast'] at hm
    injection hm with hm
    subst hm
    refine ⟨h1, h2, ?_⟩
    by_cases hL : l.length ≤ 16
    · have he : lastBlock l = l := by
        unfold lastBlock
        rw [show l.length - 16 = 0 by omega, List.drop_zero]
      rw [he] at h3
      exact h3
    · rw [← drop_lastBlock l n h2 (by omega)]
      exact h3
  · rintro ⟨h1, h2, h3⟩
    refine ⟨n, hlast', h1, h2, ?_⟩
    by_cases hL : l.length ≤ 16
    · have he : lastBlock l = l := by
        unfold lastBlock
        rw [show l.length - 16 = 0 by omega, List.drop_zero]
      rw [he]
      exact h3
    · rw [drop_lastBlock l n h2 (by omega)]
      exact h3

theorem pkcs7Unpad_none_iff (l : List Nat) :
    pkcs7Unpad l = none ↔ ¬ blockHasValidPad (lastBlock l) := by
  cases hl : l.getLast? with
  | none =>
    have hnil : l = [] := by
      cases l with
      | nil => rfl
      | cons a t => simp at hl
    subst hnil
    constructor
    · rintro _ ⟨n, hn, -⟩
      simp [lastBlock] at hn
    · intro _
      rfl
  | some n =>
    rw [pkcs7Unpad_eq_of_getLast l n hl, blockHasValidPad_lastBlock_iff l n hl]
    by_cases hC : 1 ≤ n ∧ n ≤ 16 ∧ List.drop (l.length - n) l = List.replicate n n
    · rw [if_pos hC]
      constructor
      · intro h
        exact Option.noConfusion h
      · intro h
        exact absurd hC h
    · rw [if_neg hC]
      constructor
      · intro _
        exact hC
      · intro _
        rfl

/-- C2: the Decrypt transform fails (the `DecryptError` outcome,
`none`) exactly when the input length is not a nonzero multiple of 16
or the final decrypted block does not end in valid PKCS7 padding; in
particular every 17-byte input fails. -/
theorem cbcDecrypt_fails_iff (D : List Nat → List Nat → List Nat) (p : String)
    (input : List Nat) :
    (cbcDecrypt (D (password_to_key p)) zeroIV input = none
      ↔ input.length = 0 ∨ input.length % 16 ≠ 0 ∨
          ¬ blockHasValidPad
              (lastBlock (rawCbcDecrypt (D (password_to_key p)) zeroIV input))) ∧
    (input.length = 17 → cbcDecrypt (D (password_to_key p)) zeroIV input = none) := by
  constructor
  · unfold cbcDecrypt
    by_cases hg : input.length ≠ 0 ∧ input.length % 16 = 0
    · rw [if_pos hg, pkcs7Unpad_none_iff]
      constructor
      · intro h
        exact Or.inr (Or.inr h)
      · intro h
        rcases h with h | h | h
        · exact absurd h hg.1
        · exact absurd hg.2 h
        · exact h
    · rw [if_neg hg]
      constructor
      · intro _
        by_cases h0 : input.length = 0
        · exact Or.inl h0
        · exact Or.inr (Or.inl (fun hmod => hg ⟨h0, hmod⟩))
      · intro _
        rfl
  · intro h17
    unfold cbcDecrypt
    rw [if_neg]
    rw [h17]
    decide

/-- Witness for C2: a 17-byte input is rejected. -/
theorem cbcDecrypt_fails_iff_witness :
    cbcDecrypt (fun x => x) zeroIV (List.replicate 17 0) = none :=
  (cbcDecrypt_fails_iff (fun _ x => x) "pw" (List.replicate 17 0)).2 (by decide)

/-! ## ProcessFile behaviour -/

/-- C10: when no file has been selected, handling `ProcessFile` is a
no-op: the application state (every field, including the status
message) and the file system are returned unchanged, and no panic
occurs. -/
theorem processFile_noop (E D : List Nat → List Nat → List Nat) (env : FSEnv)
    (app : AppState) (h : app.file_path = none) :
    processFile E D env app = ProcResult.ok app env.contents := by
  unfold processFile
  rw [h]

/-- A concrete all-succeeding file system holding one file. -/
def envAllOk : FSEnv :=
  ⟨fun q => if q = "a.txt" then some [1, 2, 3] else none,
   fun _ => true, fun _ => true, fun _ => true⟩

/-- A concrete application state with no file selected. -/
def appNoFile : AppState := ⟨none, "pw", Mode.Encrypt, (), (), (), "old status"⟩

/-- Witness for C10: the concrete no-file state is left untouched. -/
theorem processFile_noop_witness :
    appNoFile.file_path = none ∧
    processFile (fun _ x => x) (fun _ x => x) envAllOk appNoFile
      = ProcResult.ok appNoFile envAllOk.contents :=
  ⟨rfl, processFile_noop (fun _ x => x) (fun _ x => x) envAllOk appNoFile rfl⟩


theorem processFile_of_some (E D : List Nat → List Nat → List Nat)
    (env : FSEnv) (app : AppState) (path : String)
    (h : app.file_path = some path) :
    processFile E D env app = openPhase E D env app path := by
  unfold processFile
  rw [h]

theorem openPhase_open_fail (E D : List Nat → List Nat → List Nat)
    (env : FSEnv) (app : AppState) (path : String)
    (hc : env.contents path = none) :
    openPhase E D env app path
      = ProcResult.panic "Failed to open file" env.contents := by
  unfold openPhase
  rw [hc]

theorem openPhase_of_content (E D : List Nat → List Nat → List Nat)
    (env : FSEnv) (app : AppState) (path : String) (content : List Nat)
    (hc : env.contents path = some content) :
    openPhase E D env app path
      = (if env.readOk path then
          match processResult? E D (password_to_key app.password) app.mode content with
          | none =>
            ProcResult.panic "called Result::unwrap on an Err value: BlockModeError"
              env.contents
          | some result => writePhase env app (outputFilePath path app.mode) result
        else ProcResult.panic "Failed to read file" env.contents) := by
  unfold openPhase
  rw [hc]

/-- C6: the output path is the input path followed by `"_"` and the
mode label, hence never equal to the input path; and when processing
completes without panicking the status message is exactly
`"{mode_label}ed file saved as: {output_path}"` while every other
field of the state is unchanged. -/
theorem output_path_and_status (E D : List Nat → List Nat → List Nat)
    (env : FSEnv) (app : AppState) (path : String)
    (h : app.file_path = some path)
    (hok : (processFile E D env app).isPanic = false) :
    outputFilePath path app.mode = path ++ "_" ++ modeLabel app.mode ∧
    outputFilePath path app.mode ≠ path ∧
    (processFile E D env app).appState
      = some { app with
          message := statusMessage app.mode (outputFilePath path app.mode) } := by
  refine ⟨rfl, ?_, ?_⟩
  · intro heq
    have hlen := congrArg String.length heq
    have h7 : (modeLabel app.mode).length = 7 := by cases app.mode <;> rfl
    have h1 : ("_" : String).length = 1 := rfl
    rw [outputFilePath, String.length_append, String.length_append, h7, h1] at hlen
    omega
  · rw [processFile_of_some E D env app path h] at hok ⊢
    cases hcp : env.contents path with
    | none =>
      rw [openPhase_open_fail E D env app path hcp] at hok
      exact Bool.noConfusion hok
    | some content =>
      rw [openPhase_of_content E D env app path content hcp] at hok ⊢
      cases hr : env.readOk path with
      | false =>
        rw [hr] at hok
        exact Bool.noConfusion hok
      | true =>
        rw [hr] at hok
        cases hres : processResult? E D (password_to_key app.password) app.mode content with
        | none =>
          rw [hres] at hok
          exact Bool.noConfusion hok
        | some result =>
          rw [hres] at hok
          have hok' : (writePhase env app (outputFilePath path app.mode) result).isPanic
              = false := hok
          show (writePhase env app (outputFilePath path app.mode) result).appState
              = some { app with
                  message := statusMessage app.mode (outputFilePath path app.mode) }
          unfold writePhase at hok' ⊢
          cases hcr : env.createOk (outputFilePath path app.mode) with
          | false =>
            rw [hcr] at hok'
            exact Bool.noConfusion hok'
          | true =>
            rw [hcr] at hok'
            cases hw : env.writeOk (outputFilePath path app.mode) with
            | false =>
              rw [hw] at hok'
              exact Bool.noConfusion hok'
            | true => rfl

/-- A concrete application state with the file `"a.txt"` selected. -/
def appEncA : AppState := ⟨some "a.txt", "pw", Mode.Encrypt, (), (), (), ""⟩

/-- Witness for C6: processing `"a.txt"` in Encrypt mode over the
all-succeeding file system. -/
theorem output_path_and_status_witness :
    outputFilePath "a.txt" Mode.Encrypt = "a.txt" ++ "_" ++ modeLabel Mode.Encrypt ∧
    outputFilePath "a.txt" Mode.Encrypt ≠ "a.txt" ∧
    (processFile (fun _ x => x) (fun _ x => x) envAllOk appEncA).appState
      = some { appEncA with
          message := statusMessage Mode.Encrypt (outputFilePath "a.txt" Mode.Encrypt) } :=
  output_path_and_status (fun _ x => x) (fun _ x => x) envAllOk appEncA "a.txt"
    rfl (by decide)

/-- A file system in which no path exists. -/
def envMissing : FSEnv :=
  ⟨fun _ => none, fun _ => true, fun _ => true, fun _ => true⟩

/-- A concrete application state with `"a.txt"` selected. -/
def appSelA : AppState := ⟨some "a.txt", "pw", Mode.Encrypt, (), (), (), ""⟩

/-- A concrete application state with `"b.txt"` selected. -/
def appSelB : AppState := ⟨some "b.txt", "", Mode.Decrypt, (), (), (), ""⟩

/-- Counterexample to C4 as stated: when opening the input file fails,
the `ProcessFile` step terminates the whole process with the panic
message of the `expect` call (`"Failed to open file"`); no classified
error value (`FileOpenError`, `FileReadError`, `FileWriteError`,
`DecryptError`) is produced for the caller — the outcome type of the
translated code has no error-value case at all, only panic or
success. -/
theorem processFile_failure_is_panic_counterexample :
    (processFile (fun _ x => x) (fun _ x => x) envMissing appSelA).panicMsg
        = some "Failed to open file" ∧
    (processFile (fun _ x => x) (fun _ x => x) envMissing appSelA).isPanic = true := by
  constructor <;> rfl

/-- A file system with one file `"a.txt"` where every `read_to_end`
fails. -/
def envReadFail : FSEnv :=
  ⟨fun q => if q = "a.txt" then some [1, 2, 3] else none,
   fun _ => false, fun _ => true, fun _ => true⟩

/-- A file system with one file `"a.txt"` holding 17 bytes (ill-formed
ciphertext) and all I/O oracles succeeding. -/
def envBad17 : FSEnv :=
  ⟨fun q => if q = "a.txt" then some (List.replicate 17 0) else none,
   fun _ => true, fun _ => true, fun _ => true⟩

/-- A file system with one file `"a.txt"` where every `File::create`
fails. -/
def envCreateFail : FSEnv :=
  ⟨fun q => if q = "a.txt" then some [1, 2, 3] else none,
   fun _ => true, fun _ => false, fun _ => true⟩

/-- A concrete application state with `"a.txt"` selected, Decrypt
mode. -/
def appDecA : AppState := ⟨some "a.txt", "pw", Mode.Decrypt, (), (), (), ""⟩

/-- A file system with one file `"c.txt"` where every `write_all`
fails. -/
def envWriteFail : FSEnv :=
  ⟨fun q => if q = "c.txt" then some [1, 2, 3] else none,
   fun _ => true, fun _ => true, fun _ => false⟩

/-- A concrete application state with `"c.txt"` selected, Encrypt
mode. -/
def appEncC : AppState := ⟨some "c.txt", "pw", Mode.Encrypt, (), (), (), ""⟩

/-- C4 (amended): every failure during the transformation — file open,
file read, a decrypt (`DecryptError`) failure, output-file creation,
or output-file write — aborts it by terminating the whole process with
the panic of the corresponding `expect`/`unwrap` call, rather than
being reported to the caller as a classified error value. -/
theorem processFile_failures_panic (E D : List Nat → List Nat → List Nat)
    (env : FSEnv) (app : AppState) (path : String)
    (h : app.file_path = some path) :
    (env.contents path = none →
      processFile E D env app
        = ProcResult.panic "Failed to open file" env.contents) ∧
    (∀ content : List Nat, env.contents path = some content →
      env.readOk path = false →
      processFile E D env app
        = ProcResult.panic "Failed to read file" env.contents) ∧
    (∀ content : List Nat, env.contents path = some content →
      env.readOk path = true →
      processResult? E D (password_to_key app.password) app.mode content = none →
      processFile E D env app
        = ProcResult.panic "called Result::unwrap on an Err value: BlockModeError"
            env.contents) ∧
    (∀ content result : List Nat, env.contents path = some content →
      env.readOk path = true →
      processResult? E D (password_to_key app.password) app.mode content
          = some result →
      env.createOk (outputFilePath path app.mode) = false →
      processFile E D env app
        = ProcResult.panic "Failed to create output file" env.contents) ∧
    (∀ content result : List Nat, env.contents path = some content →
      env.readOk path = true →
      processResult? E D (password_to_key app.password) app.mode content
          = some result →
      env.createOk (outputFilePath path app.mode) = true →
      env.writeOk (outputFilePath path app.mode) = false →
      processFile E D env app
        = ProcResult.panic "Failed to write output file"
            (fsSet env.contents (outputFilePath path app.mode) [])) := by
  refine ⟨?_, ?_, ?_, ?_, ?_⟩
  · intro hmiss
    rw [processFile_of_some E D env app path h,
      openPhase_open_fail E D env app path hmiss]
  · intro content hc hrf
    rw [processFile_of_some E D env app path h,
      openPhase_of_content E D env app path content hc, hrf]
    rfl
  · intro content hc hr hres
    rw [processFile_of_some E D env app path h,
      openPhase_of_content E D env app path content hc, hr, hres]
    rfl
  · intro content result hc hr hres hcr
    rw [processFile_of_some E D env app path h,
      openPhase_of_content E D env app path content hc, hr, hres]
    show writePhase env app (outputFilePath path app.mode) result
        = ProcResult.panic "Failed to create output file" env.contents
    unfold writePhase
    rw [hcr]
    rfl
  · intro content result hc hr hres hcr hw
    rw [processFile_of_some E D env app path h,
      openPhase_of_content E D env app path content hc, hr, hres]
    show writePhase env app (outputFilePath path app.mode) result
        = ProcResult.panic "Failed to write output file"
            (fsSet env.contents (outputFilePath path app.mode) [])
    unfold writePhase
    rw [hcr, hw]
    rfl

/-- Witness for the amended C4: each of the five failure sites panics
on a concrete scenario — a missing file, an unreadable file, an
ill-formed 17-byte ciphertext in Decrypt mode, a failing
`File::create`, and a failing `write_all`. -/
theorem processFile_failures_panic_witness :
    processFile (fun _ x => x) (fun _ x => x) envMissing appSelB
      = ProcResult.panic "Failed to open file" envMissing.contents ∧
    processFile (fun _ x => x) (fun _ x => x) envReadFail appSelA
      = ProcResult.panic "Failed to read file" envReadFail.contents ∧
    processFile (fun _ x => x) (fun _ x => x) envBad17 appDecA
      = ProcResult.panic "called Result::unwrap on an Err value: BlockModeError"
          envBad17.contents ∧
    processFile (fun _ x => x) (fun _ x => x) envCreateFail appSelA
      = ProcResult.panic "Failed to create output file" envCreateFail.contents ∧
    processFile (fun _ x => x) (fun _ x => x) envWriteFail appEncC
      = ProcResult.panic "Failed to write output file"
          (fsSet envWriteFail.contents (outputFilePath "c.txt" Mode.Encrypt) []) :=
  ⟨(processFile_failures_panic (fun _ x => x) (fun _ x => x) envMissing appSelB
      "b.txt" rfl).1 rfl,
   (processFile_failures_panic (fun _ x => x) (fun _ x => x) envReadFail appSelA
      "a.txt" rfl).2.1 [1, 2, 3] (by decide) rfl,
   (processFile_failures_panic (fun _ x => x) (fun _ x => x) envBad17 appDecA
      "a.txt" rfl).2.2.1 (List.replicate 17 0) (by decide) rfl (by decide),
   (processFile_failures_panic (fun _ x => x) (fun _ x => x) envCreateFail appSelA
      "a.txt" rfl).2.2.2.1 [1, 2, 3] (cbcEncrypt (fun x => x) zeroIV [1, 2, 3])
      (by decide) rfl rfl rfl,
   (processFile_failures_panic (fun _ x => x) (fun _ x => x) envWriteFail appEncC
      "c.txt" rfl).2.2.2.2 [1, 2, 3] (cbcEncrypt (fun x => x) zeroIV [1, 2, 3])
      (by decide) rfl rfl rfl rfl⟩

/-- Counterexample to C9 as stated: with the write failing after a
successful cipher step (the Encrypt transform of `[1,2,3]` succeeds
and has 16 bytes), the step panics and the file created and truncated
to empty by `File::create` remains observable at the output path —
an empty (partial) output file where 16 bytes were intended. -/
theorem write_failure_partial_file_counterexample :
    (processFile (fun _ x => x) (fun _ x => x) envWriteFail appEncC).isPanic = true ∧
    (processFile (fun _ x => x) (fun _ x => x) envWriteFail appEncC).fs "c.txt_Encrypt"
        = some [] ∧
    (cbcEncrypt (fun x => x) zeroIV [1, 2, 3]).length = 16 := by
  refine ⟨rfl, ?_, by decide⟩
  rfl

/-- C9 (amended): if writing the output file fails after a successful
cipher step (shown for the Encrypt direction, whose cipher step always
succeeds), the transformation panics and the output file created (and
truncated to empty) by `File::create` remains observable at the output
path: nothing is written to a temporary path and renamed. -/
theorem processFile_write_failure_leaves_file (E D : List Nat → List Nat → List Nat)
    (env : FSEnv) (app : AppState) (path : String) (content : List Nat)
    (h : app.file_path = some path)
    (hc : env.contents path = some content)
    (hr : env.readOk path = true)
    (hm : app.mode = Mode.Encrypt)
    (hcr : env.createOk (outputFilePath path Mode.Encrypt) = true)
    (hw : env.writeOk (outputFilePath path Mode.Encrypt) = false) :
    processFile E D env app
      = ProcResult.panic "Failed to write output file"
          (fsSet env.contents (outputFilePath path Mode.Encrypt) []) ∧
    (processFile E D env app).fs (outputFilePath path Mode.Encrypt) = some [] := by
  have h1 : processFile E D env app
      = ProcResult.panic "Failed to write output file"
          (fsSet env.contents (outputFilePath path Mode.Encrypt) []) := by
    rw [processFile_of_some E D env app path h,
      openPhase_of_content E D env app path content hc, hr, hm]
    show writePhase env app (outputFilePath path Mode.Encrypt)
        (cbcEncrypt (E (password_to_key app.password)) zeroIV content)
      = ProcResult.panic "Failed to write output file"
          (fsSet env.contents (outputFilePath path Mode.Encrypt) [])
    unfold writePhase
    rw [hcr, hw]
    rfl
  refine ⟨h1, ?_⟩
  rw [h1]
  show fsSet env.contents (outputFilePath path Mode.Encrypt) []
      (outputFilePath path Mode.Encrypt) = some []
  unfold fsSet
  rw [if_pos rfl]

/-- Witness for the amended C9 on the concrete `"c.txt"` scenario. -/
theorem processFile_write_failure_leaves_file_witness :
    processFile (fun _ x => x) (fun _ x => x) envWriteFail appEncC
      = ProcResult.panic "Failed to write output file"
          (fsSet envWriteFail.contents (outputFilePath "c.txt" Mode.Encrypt) []) ∧
    (processFile (fun _ x => x) (fun _ x => x) envWriteFail appEncC).fs
        (outputFilePath "c.txt" Mode.Encrypt) = some [] :=
  processFile_write_failure_leaves_file (fun _ x => x) (fun _ x => x) envWriteFail
    appEncC "c.txt" [1, 2, 3] rfl (by decide) rfl rfl rfl rfl
